import Mathlib

/-!
Verification of the `imessage-cli` core against its specification.

The development shallowly embeds the two components the claims are about:

* `MultiLineInputBox` — the multi-line input editor of
  `src/imessage_cli/tui.py` (buffer, cursor, history, edit operations,
  key handling), together with the application-level dispatch step of
  `MessagesTUI.run` / `MessagesTUI._send_current_message`.
* `MessageWatcher` — the polling watcher of `src/imessage_cli/watcher.py`
  (freshness fast path, watermark, delta fetch, observer fan-out, error
  isolation), embedded as a state-transition function that also records
  the observer invocations of each tick as an event list.

Python strings are modelled as `List Char`; Python lists as `List`;
Python `int` indices as `Nat` (every decrement in the source is guarded
by a positivity test, so no wrap-around can occur); the database file's
modification time as a `Nat` (it is only ever compared).
-/

/-! ## The input editor (`MultiLineInputBox`, tui.py) -/

/-- Whitespace test used for Python's `str.isspace` / `str.strip` on the
ASCII characters the editor actually handles. -/
def is_space (c : Char) : Bool :=
  c == ' ' || c == '\t' || c == '\n' || c == '\r'

/-- Python `text.strip()` is falsy iff every character is whitespace. -/
def is_blank (l : List Char) : Bool := l.all is_space

/-- Python `"\n".join(lines)`. -/
def join_nl : List (List Char) → List Char
  | [] => []
  | [l] => l
  | l :: ls => l ++ '\n' :: join_nl ls

/-- Python `s.rstrip("\n")`: remove every trailing newline character. -/
def rstrip_nl (l : List Char) : List Char :=
  (l.reverse.dropWhile (· == '\n')).reverse

/-- Python `text.split("\n")`: always returns at least one (possibly
empty) part; one extra part per newline character. -/
def split_nl : List Char → List (List Char)
  | [] => [[]]
  | c :: rest =>
    match split_nl rest with
    | [] => [[]]
    | l :: ls => if c == '\n' then [] :: l :: ls else (c :: l) :: ls

/-- State of `MultiLineInputBox` (tui.py, lines 60-77): the line buffer,
the cursor, and the submission history with its recall index. -/
structure MultiLineInputBox where
  lines : List (List Char)
  cursor_row : Nat
  cursor_col : Nat
  history : List (List Char)
  history_idx : Option Nat
deriving DecidableEq, Repr

/-- The freshly constructed box: one empty line, cursor at the origin. -/
def MultiLineInputBox.initial : MultiLineInputBox :=
  { lines := [[]], cursor_row := 0, cursor_col := 0,
    history := [], history_idx := none }

/-- The line the cursor is on (`self.lines[self.cursor_row]`). -/
def MultiLineInputBox.cur_line (st : MultiLineInputBox) : List Char :=
  st.lines.getD st.cursor_row []

/-- Embeds `get_text` (tui.py 79-80): join the lines with newlines and strip
trailing newline characters. -/
def MultiLineInputBox.get_text (st : MultiLineInputBox) : List Char :=
  rstrip_nl (join_nl st.lines)

/-- Embeds `set_text` (tui.py 82-87): replace the buffer by the split text and
put the cursor at the end of the last line.  (`text.split("\n")` is
never empty, so the `or [""]` / `if not self.lines` guards of the source
are dead; the emptiness check is kept to mirror them.) -/
def MultiLineInputBox.set_text (st : MultiLineInputBox) (text : List Char) :
    MultiLineInputBox :=
  let ls := split_nl text
  let ls := if ls = [] then [[]] else ls
  { st with lines := ls,
            cursor_row := ls.length - 1,
            cursor_col := (ls.getD (ls.length - 1) []).length }

/-- Embeds `clear` (tui.py 89-93). -/
def MultiLineInputBox.clear (st : MultiLineInputBox) : MultiLineInputBox :=
  { st with lines := [[]], cursor_row := 0, cursor_col := 0,
            history_idx := none }

/-- Embeds `push_history` (tui.py 95-100): append a non-blank text unless it
repeats the most recent entry; always leave recall mode. -/
def MultiLineInputBox.push_history (st : MultiLineInputBox)
    (text : List Char) : MultiLineInputBox :=
  let st :=
    if ¬ is_blank text then
      if st.history = [] ∨ st.history.getLast? ≠ some text then
        { st with history := st.history ++ [text] }
      else st
    else st
  { st with history_idx := none }

/-- Embeds `recall_history` (tui.py 102-118).  `direction` is `-1` for up
(older), `1` for down (newer); the index is clamped at both ends. -/
def MultiLineInputBox.recall_history (st : MultiLineInputBox)
    (direction : Int) : MultiLineInputBox × Option (List Char) :=
  if st.history = [] then (st, none)
  else
    match st.history_idx with
    | none =>
      if direction = -1 then
        let idx := st.history.length - 1
        ({ st with history_idx := some idx }, some (st.history.getD idx []))
      else (st, none)
    | some i =>
      let j : Int := (i : Int) + direction
      let j : Nat :=
        if j < 0 then 0
        else if (st.history.length : Int) ≤ j then st.history.length - 1
        else j.toNat
      ({ st with history_idx := some j }, some (st.history.getD j []))

/-- Embeds `_move_left` (tui.py 121-126). -/
def MultiLineInputBox._move_left (st : MultiLineInputBox) : MultiLineInputBox :=
  if 0 < st.cursor_col then { st with cursor_col := st.cursor_col - 1 }
  else if 0 < st.cursor_row then
    { st with cursor_row := st.cursor_row - 1,
              cursor_col := (st.lines.getD (st.cursor_row - 1) []).length }
  else st

/-- Embeds `_move_right` (tui.py 128-133). -/
def MultiLineInputBox._move_right (st : MultiLineInputBox) : MultiLineInputBox :=
  if st.cursor_col < st.cur_line.length then
    { st with cursor_col := st.cursor_col + 1 }
  else if st.cursor_row < st.lines.length - 1 then
    { st with cursor_row := st.cursor_row + 1, cursor_col := 0 }
  else st

/-- Embeds `_move_up` (tui.py 135-138). -/
def MultiLineInputBox._move_up (st : MultiLineInputBox) : MultiLineInputBox :=
  if 0 < st.cursor_row then
    { st with cursor_row := st.cursor_row - 1,
              cursor_col := min st.cursor_col
                (st.lines.getD (st.cursor_row - 1) []).length }
  else st

/-- Embeds `_move_down` (tui.py 140-143). -/
def MultiLineInputBox._move_down (st : MultiLineInputBox) : MultiLineInputBox :=
  if st.cursor_row < st.lines.length - 1 then
    { st with cursor_row := st.cursor_row + 1,
              cursor_col := min st.cursor_col
                (st.lines.getD (st.cursor_row + 1) []).length }
  else st

/-- Embeds `_delete_backwards` (tui.py 145-158): delete the character before
the cursor, or join with the previous line at column 0. -/
def MultiLineInputBox._delete_backwards (st : MultiLineInputBox) :
    MultiLineInputBox :=
  if 0 < st.cursor_col then
    let line := st.cur_line
    { st with
      lines := st.lines.set st.cursor_row
        (line.take (st.cursor_col - 1) ++ line.drop st.cursor_col),
      cursor_col := st.cursor_col - 1 }
  else if 0 < st.cursor_row then
    let prev := st.lines.getD (st.cursor_row - 1) []
    let cur := st.cur_line
    { st with
      lines := (st.lines.eraseIdx st.cursor_row).set (st.cursor_row - 1)
        (prev ++ cur),
      cursor_row := st.cursor_row - 1,
      cursor_col := prev.length }
  else st

/-- Embeds the scan `while i > 0 and line[i-1].isspace(): i -= 1` (tui.py 175-176).
Out-of-range reads cannot occur for in-bounds cursors; the default
character is a non-space so that a hypothetical out-of-range read stops
the scan. -/
def skip_space_back (line : List Char) : Nat → Nat
  | 0 => 0
  | i + 1 => if is_space (line.getD i 'x') then skip_space_back line i else i + 1

/-- Embeds the scan `while i > 0 and not line[i-1].isspace(): i -= 1` (tui.py 178-179). -/
def skip_word_back (line : List Char) : Nat → Nat
  | 0 => 0
  | i + 1 => if is_space (line.getD i ' ') then i + 1 else skip_word_back line i

/-- Embeds `_delete_word_backwards` (tui.py 160-181): at column 0 of a
non-first line, merge with the previous line; otherwise scan back over
whitespace then over a word and cut that span. -/
def MultiLineInputBox._delete_word_backwards (st : MultiLineInputBox) :
    MultiLineInputBox :=
  let line := st.cur_line
  if st.cursor_col = 0 ∧ 0 < st.cursor_row then
    let prev := st.lines.getD (st.cursor_row - 1) []
    { st with
      lines := ((st.lines.set (st.cursor_row - 1) (prev ++ line)).eraseIdx
        st.cursor_row),
      cursor_row := st.cursor_row - 1,
      cursor_col := prev.length }
  else
    let i := skip_word_back line (skip_space_back line st.cursor_col)
    { st with
      lines := st.lines.set st.cursor_row (line.take i ++ line.drop st.cursor_col),
      cursor_col := i }

/-- Embeds `_kill_to_end` (tui.py 183-186). -/
def MultiLineInputBox._kill_to_end (st : MultiLineInputBox) : MultiLineInputBox :=
  { st with lines := st.lines.set st.cursor_row (st.cur_line.take st.cursor_col) }

/-- Embeds `_insert_text` (tui.py 269-276): splice `s` in at the cursor and
advance the cursor by its length. -/
def MultiLineInputBox._insert_text (st : MultiLineInputBox) (s : List Char) :
    MultiLineInputBox :=
  let line := st.cur_line
  { st with
    lines := st.lines.set st.cursor_row
      (line.take st.cursor_col ++ s ++ line.drop st.cursor_col),
    cursor_col := st.cursor_col + s.length }

/-- Keys recognised by `handle_key` (tui.py 189-267).  The several
key codes the source maps to one action (`KEY_BACKSPACE`/127/8; the
`ENTER_KEYS` codes and `KEY_ENTER`) collapse to one constructor;
`char c` stands for a key code `0 ≤ key < 256` decoded as `chr(key)`. -/
inductive Key where
  | backspace
  | deleteKey
  | leftArrow
  | rightArrow
  | upArrow
  | downArrow
  | homeKey
  | endKey
  | ctrlU
  | ctrlW
  | ctrlK
  | enterKey
  | tabKey
  | char (c : Char)
deriving DecidableEq, Repr

/-- Embeds `chr(key).isprintable()` for the Latin-1 code points `0 ≤ key < 256`
reachable in the `0 <= key < 256` branch of `handle_key`: everything but
the C0 and C1 control blocks, DEL, NBSP and the soft hyphen. -/
def is_printable_latin1 (n : Nat) : Bool :=
  decide (32 ≤ n ∧ n ≠ 127 ∧ ¬ (128 ≤ n ∧ n ≤ 160) ∧ n ≠ 173)

/-- Embeds `handle_key` (tui.py 189-267): perform one editing action; on Enter
return the joined text while leaving the buffer untouched. -/
def MultiLineInputBox.handle_key (st : MultiLineInputBox) (key : Key) :
    MultiLineInputBox × Option (List Char) :=
  match key with
  | .backspace => (st._delete_backwards, none)
  | .deleteKey =>
    let line := st.cur_line
    if st.cursor_col < line.length then
      let cut := line.take st.cursor_col ++ line.drop (st.cursor_col + 1)
      ({ st with lines := st.lines.set st.cursor_row cut }, none)
    else if st.cursor_row < st.lines.length - 1 then
      let nxt := st.lines.getD (st.cursor_row + 1) []
      let ls := (st.lines.eraseIdx (st.cursor_row + 1)).set st.cursor_row (line ++ nxt)
      ({ st with lines := ls }, none)
    else (st, none)
  | .leftArrow => (st._move_left, none)
  | .rightArrow => (st._move_right, none)
  | .upArrow =>
    if 0 < st.cursor_row then (st._move_up, none)
    else
      let r := st.recall_history (-1)
      match r.2 with
      | some t => (r.1.set_text t, none)
      | none => (r.1, none)
  | .downArrow =>
    if st.cursor_row < st.lines.length - 1 then (st._move_down, none)
    else
      let r := st.recall_history 1
      match r.2 with
      | some t => (r.1.set_text t, none)
      | none => (r.1, none)
  | .homeKey => ({ st with cursor_col := 0 }, none)
  | .endKey => ({ st with cursor_col := st.cur_line.length }, none)
  | .ctrlU => (st.clear, none)
  | .ctrlW => (st._delete_word_backwards, none)
  | .ctrlK => (st._kill_to_end, none)
  | .enterKey => (st, some st.get_text)
  | .tabKey => (st._insert_text [' ', ' ', ' ', ' '], none)
  | .char c =>
    if c.toNat < 256 && is_printable_latin1 c.toNat then
      (st._insert_text [c], none)
    else (st, none)

/-- The editor invariant stated by the spec: at least one line, the
cursor row inside the line list, the cursor column inside (or at the end
of) its line. -/
def MultiLineInputBox.Inv (st : MultiLineInputBox) : Prop :=
  0 < st.lines.length ∧
  st.cursor_row < st.lines.length ∧
  st.cursor_col ≤ st.cur_line.length

instance (st : MultiLineInputBox) : Decidable st.Inv := by
  unfold MultiLineInputBox.Inv; infer_instance

/-! ## The application dispatch step (`MessagesTUI`, tui.py)

Only the state fields read or written by the submit path
(`run`, lines 993-1012, and `_send_current_message`, lines 878-910) are
modelled. -/

/-- The focus state machine's three states (tui.py 369). -/
inductive Focus where
  | conversations
  | messages
  | input
deriving DecidableEq, Repr

/-- Embeds `Conversation` (watcher.py 29-39), restricted to the two fields the
submit path reads. -/
structure Conversation where
  chat_id : Nat
  chat_identifier : List Char
deriving DecidableEq, Repr

/-- The slice of `MessagesTUI` state used by the submit path
(tui.py 360-377). -/
structure AppState where
  input_box : MultiLineInputBox
  focus : Focus
  status_message : List Char
  error_message : List Char
  selected_chat_id : Option Nat
  conversations : List Conversation
deriving DecidableEq, Repr

/-- Outcome of the external Dispatch Port call
`send_message(identifier, text)` (sender.py): a truthy return, a falsy
return, or an exception carrying its rendered message `str(e)`. -/
inductive SendBehavior where
  | succeeds
  | returnsFalse
  | raises (e : List Char)
deriving DecidableEq, Repr

/-- Embeds `_send_current_message` (tui.py 878-910): refuse blank text, require
a selected and present conversation, then interpret the Dispatch Port's
outcome, recording the status or error string.  Python's truthiness test
`not self.selected_chat_id` is false for both `None` and `0`. -/
def MessagesTUI._send_current_message (app : AppState) (sb : SendBehavior)
    (text : List Char) : Bool × AppState :=
  if is_blank text then (false, app)
  else if app.selected_chat_id.getD 0 = 0 ∨ app.conversations = [] then
    (false, { app with error_message := "No conversation selected".toList })
  else
    match app.conversations.find?
        (fun c => app.selected_chat_id == some c.chat_id) with
    | none => (false, { app with error_message := "Conversation not found".toList })
    | some _ =>
      match sb with
      | .succeeds => (true, { app with status_message := "Message sent!".toList })
      | .returnsFalse =>
        (false, { app with error_message := "Failed to send message".toList })
      | .raises e =>
        (false, { app with error_message := "Send error: ".toList ++ e.take 80 })

/-- One key handled while focus is on the input box and the key is not
Escape (`run`, tui.py 999-1012): feed the key to the editor; when it
returns text, attempt the send, push history and clear the buffer only
on success, and in either case return focus to the message pane. -/
def MessagesTUI.input_key_step (app : AppState) (key : Key)
    (sb : SendBehavior) : AppState :=
  let r := app.input_box.handle_key key
  let app1 := { app with input_box := r.1 }
  match r.2 with
  | none => app1
  | some text =>
    let s := MessagesTUI._send_current_message app1 sb text
    let app2 := s.2
    let app3 :=
      if s.1 then
        { app2 with input_box := (app2.input_box.push_history text).clear }
      else app2
    { app3 with focus := Focus.messages }

/-! ## The watcher (`MessageWatcher`, watcher.py)

The store is modelled at the message level: a list of messages in
insertion order plus the database file's modification time.  One call of
the `_poll_loop` body (watcher.py 251-286) becomes a function from the
observed store and the failure pattern of that tick to the next watcher
state plus the list of observer invocations the tick performs. -/

/-- A message row, restricted to the two columns the watcher's polling
logic reads: `ROWID` (the sequence id) and `date` (the sort key of
`get_new_messages`). -/
structure Msg where
  rowid : Nat
  date : Nat
deriving DecidableEq, Repr

/-- The external store: the message table in insertion order, and the
database file's modification time. -/
structure Store where
  msgs : List Msg
  mtime : Nat
deriving DecidableEq, Repr

/-- Embeds `SELECT MAX(ROWID) FROM message` with the `result[0] or 0` fallback
of `_get_last_message_id` (watcher.py 72-82). -/
def max_rowid (l : List Msg) : Nat := (l.map Msg.rowid).foldr max 0

/-- Embeds `_get_last_message_id` (watcher.py 72-82). -/
def MessageWatcher._get_last_message_id (s : Store) : Nat := max_rowid s.msgs

/-- Embeds `get_new_messages` (watcher.py 197-249): the rows with
`ROWID > since_id`, ordered by `date` ascending (`ORDER BY m.date ASC`,
embedded as a stable sort on the `date` field). -/
def MessageWatcher.get_new_messages (s : Store) (since_id : Nat) : List Msg :=
  List.insertionSort (fun m m' => m.date ≤ m'.date)
    (s.msgs.filter (fun m => decide (since_id < m.rowid)))

/-- Watcher state (watcher.py 51-55): the running flag, the sequence-id
watermark and the last observed modification time. -/
structure WatcherState where
  _running : Bool
  _last_message_id : Nat
  _last_mtime : Nat
deriving DecidableEq, Repr

/-- The state set by `__init__` (watcher.py 45-58). -/
def MessageWatcher.initial : WatcherState :=
  { _running := false, _last_message_id := 0, _last_mtime := 0 }

/-- Embeds `start` (watcher.py 296-307): a no-op while already running;
otherwise read the baseline watermark and modification time and launch
the poll-loop thread.  The boolean records whether a thread was
launched. -/
def MessageWatcher.start (s : Store) (w : WatcherState) :
    WatcherState × Bool :=
  if w._running then (w, false)
  else
    ({ _running := true,
       _last_message_id := MessageWatcher._get_last_message_id s,
       _last_mtime := s.mtime }, true)

/-- An observer invocation performed during one tick: a new-message
callback receiving a batch, a conversation callback receiving the
refresh recomputed from the given store (`get_conversations()`, whose
SQL aggregates chat tables outside this message-level model), or an
error callback receiving a caught exception. -/
inductive Ev where
  | msgDelivery (obs : Nat) (batch : List Msg)
  | convDelivery (obs : Nat) (s : Store)
  | errDelivery (obs : Nat)
deriving DecidableEq, Repr

/-- What one tick observes: the current store, plus the failure pattern
of that tick — whether each fallible store read raises and which
registered callbacks raise when invoked.  The callback lists themselves
are represented by their lengths (registration is append-only and the
callbacks' effects are the recorded events). -/
structure TickEnv where
  store : Store
  read_new_raises : Bool
  read_convs_raises : Bool
  msg_cb_raises : Nat → Bool
  conv_cb_raises : Nat → Bool
  num_msg_cbs : Nat
  num_conv_cbs : Nat
  num_err_cbs : Nat

/-- Embeds `_notify_error` (watcher.py 288-294): every error callback is
invoked; exceptions inside the error callbacks themselves are
swallowed. -/
def notify_error (env : TickEnv) : List Ev :=
  (List.range env.num_err_cbs).map Ev.errDelivery

/-- The `for callback in self._callbacks` loop (watcher.py 269-273):
each new-message callback gets the batch; if it raises, the exception is
redirected to the error callbacks and the loop proceeds. -/
def deliver_msgs (env : TickEnv) (batch : List Msg) : List Ev :=
  (List.range env.num_msg_cbs).flatMap fun i =>
    Ev.msgDelivery i batch :: (if env.msg_cb_raises i then notify_error env else [])

/-- The `for callback in self._conversation_callbacks` loop
(watcher.py 277-281). -/
def deliver_convs (env : TickEnv) : List Ev :=
  (List.range env.num_conv_cbs).flatMap fun i =>
    Ev.convDelivery i env.store ::
      (if env.conv_cb_raises i then notify_error env else [])

/-- One iteration of the `_poll_loop` body (watcher.py 251-286): the
mtime fast path, the watermark comparison, the delta fetch, the two
observer fan-outs, and the outer `except` that redirects a store-read
exception to the error callbacks.  `_get_db_mtime` and
`_get_last_message_id` never raise (their own handlers return `0`). -/
def poll_tick (env : TickEnv) (w : WatcherState) : WatcherState × List Ev :=
  if w._last_mtime < env.store.mtime then
    let w1 := { w with _last_mtime := env.store.mtime }
    let current_max_id := MessageWatcher._get_last_message_id env.store
    if w1._last_message_id < current_max_id then
      if env.read_new_raises then (w1, notify_error env)
      else
        let new_messages :=
          MessageWatcher.get_new_messages env.store w1._last_message_id
        let w2 := { w1 with _last_message_id := current_max_id }
        let msg_evs := if new_messages.isEmpty then [] else deliver_msgs env new_messages
        if env.read_convs_raises then (w2, msg_evs ++ notify_error env)
        else (w2, msg_evs ++ deliver_convs env)
    else
      if env.read_convs_raises then (w1, notify_error env)
      else (w1, deliver_convs env)
  else (w, [])

/-- The poll loop over a finite schedule of ticks, collecting every
observer invocation in order. -/
def poll_loop : List TickEnv → WatcherState → WatcherState × List Ev
  | [], w => (w, [])
  | env :: rest, w =>
    let t := poll_tick env w
    let r := poll_loop rest t.1
    (r.1, t.2 ++ r.2)

/-- A tick on which no store read and no observer raises, with the given
numbers of registered callbacks. -/
def pure_env (n_msg n_conv n_err : Nat) (s : Store) : TickEnv :=
  { store := s, read_new_raises := false, read_convs_raises := false,
    msg_cb_raises := fun _ => false, conv_cb_raises := fun _ => false,
    num_msg_cbs := n_msg, num_conv_cbs := n_conv, num_err_cbs := n_err }

/-- The messages delivered to new-message observer `i`, in delivery
order, across an event list. -/
def delivered_to (i : Nat) (evs : List Ev) : List Msg :=
  evs.flatMap fun e =>
    match e with
    | Ev.msgDelivery j batch => if j = i then batch else []
    | _ => []

/-- Evolution of the append-only store between two consecutive ticks:
messages are only appended, and the file modification time does not
decrease and strictly increases whenever rows were appended. -/
def StoreStep (s s' : Store) : Prop :=
  (∃ new : List Msg, s'.msgs = s.msgs ++ new) ∧
  s.mtime ≤ s'.mtime ∧ (s.msgs ≠ s'.msgs → s.mtime < s'.mtime)

/-- Well-formedness of the store's message table: `ROWID`s are the
positive autoincrement keys (strictly increasing in insertion order) and
rows are appended in chronological order (`date` non-decreasing). -/
def StoreOk (l : List Msg) : Prop :=
  l.Pairwise (fun m m' => m.rowid < m'.rowid) ∧
  l.Pairwise (fun m m' => m.date ≤ m'.date) ∧
  ∀ m ∈ l, 0 < m.rowid

instance (l : List Msg) : Decidable (StoreOk l) := by
  unfold StoreOk; infer_instance

instance (s s' : Store) : Decidable (StoreStep s s') := by
  unfold StoreStep
  have hA : Decidable (∃ new : List Msg, s'.msgs = s.msgs ++ new) := by
    refine decidable_of_iff (s'.msgs.take s.msgs.length = s.msgs) ⟨?_, ?_⟩
    · intro h
      refine ⟨s'.msgs.drop s.msgs.length, ?_⟩
      conv_lhs => rw [← List.take_append_drop s.msgs.length s'.msgs]
      rw [h]
    · rintro ⟨new, hnew⟩
      rw [hnew, List.take_left]
  exact @instDecidableAnd _ _ hA _

/-- Exceptions actually raised during one tick, mirroring the control
flow of `_poll_loop`: a failing `get_new_messages` or
`get_conversations` aborts the rest of the tick body (one exception,
caught by the outer handler), while each raising observer callback
counts separately (caught per callback). -/
def exceptions_fired (env : TickEnv) (w : WatcherState) : Nat :=
  if w._last_mtime < env.store.mtime then
    let conv_exc :=
      if env.read_convs_raises then 1
      else ((List.range env.num_conv_cbs).filter env.conv_cb_raises).length
    if w._last_message_id < MessageWatcher._get_last_message_id env.store then
      if env.read_new_raises then 1
      else
        let batch := MessageWatcher.get_new_messages env.store w._last_message_id
        let msg_exc :=
          if batch.isEmpty then 0
          else ((List.range env.num_msg_cbs).filter env.msg_cb_raises).length
        msg_exc + conv_exc
    else conv_exc
  else 0

/-! ## Concrete states used by the witnesses and counterexamples -/

/-- An editor positioned at the newest (and only) history entry, with a
buffer different from both that entry and the empty buffer. -/
def recall_probe : MultiLineInputBox :=
  { lines := [['y']], cursor_row := 0, cursor_col := 1,
    history := [['x']], history_idx := some 0 }

/-- A two-line draft "h"/"i" in an otherwise fresh editor. -/
def draft_hi : MultiLineInputBox :=
  { lines := [['h'], ['i']], cursor_row := 1, cursor_col := 1,
    history := [], history_idx := none }

/-- A buffer whose lines end in a trailing empty line. -/
def draft_hi_trailing : MultiLineInputBox :=
  { lines := [['h'], ['i'], []], cursor_row := 2, cursor_col := 0,
    history := [], history_idx := none }

/-- An application state focused on the input box with one conversation
selected and the two-line draft pending. -/
def app_probe : AppState :=
  { input_box := draft_hi, focus := Focus.input,
    status_message := [], error_message := [],
    selected_chat_id := some 1,
    conversations := [{ chat_id := 1, chat_identifier := ['a'] }] }

/-- A store holding one message with sequence id 10. -/
def store0 : Store :=
  { msgs := [{ rowid := 10, date := 5 }], mtime := 1 }

/-- The store `store0` after messages 11 and 12 arrive. -/
def store1 : Store :=
  { msgs := [{ rowid := 10, date := 5 }, { rowid := 11, date := 6 },
             { rowid := 12, date := 7 }], mtime := 2 }

/-- A truncated store as seen by a later tick: the file modification
time has advanced past `store0`'s, while the highest sequence id has
dropped to 0 (all rows gone). -/
def store_trunc : Store := { msgs := [], mtime := 5 }

/-- A tick on `store1` whose conversation read raises and whose only
new-message callback raises. -/
def failing_env : TickEnv :=
  { store := store1, read_new_raises := false, read_convs_raises := true,
    msg_cb_raises := fun _ => true, conv_cb_raises := fun _ => false,
    num_msg_cbs := 1, num_conv_cbs := 1, num_err_cbs := 2 }

/-! ### List helper lemmas -/

theorem getD_set_self {α : Type} {l : List α} {i : Nat} (h : i < l.length)
    (a d : α) : (l.set i a).getD i d = a := by
  simp [List.getD_eq_getElem?_getD, List.getElem?_set_self h]

theorem getD_set_ne {α : Type} {l : List α} {i j : Nat} (h : i ≠ j)
    (a d : α) : (l.set i a).getD j d = l.getD j d := by
  simp [List.getD_eq_getElem?_getD, List.getElem?_set_ne h]

theorem set_getD_self {α : Type} {l : List α} {i : Nat} (h : i < l.length)
    (d : α) : l.set i (l.getD i d) = l := by
  apply List.ext_getElem?
  intro j
  rw [List.getElem?_set]
  split
  · next hij =>
    subst hij
    simp [List.getD_eq_getElem?_getD, List.getElem?_eq_getElem h, h]
  · rfl

theorem getD_eraseIdx_lt {α : Type} {l : List α} {i j : Nat} (h : j < i)
    (d : α) : (l.eraseIdx i).getD j d = l.getD j d := by
  simp [List.getD_eq_getElem?_getD, List.getElem?_eraseIdx, h]

theorem split_nl_ne_nil (l : List Char) : split_nl l ≠ [] := by
  induction l with
  | nil => simp [split_nl]
  | cons c rest ih =>
    unfold split_nl
    cases h : split_nl rest with
    | nil => simp
    | cons a as => dsimp; split <;> simp

theorem skip_space_back_le (line : List Char) (i : Nat) :
    skip_space_back line i ≤ i := by
  induction i with
  | zero => simp [skip_space_back]
  | succ n ih => unfold skip_space_back; split <;> omega

theorem skip_word_back_le (line : List Char) (i : Nat) :
    skip_word_back line i ≤ i := by
  induction i with
  | zero => simp [skip_word_back]
  | succ n ih => unfold skip_word_back; split <;> omega

/-! ### Editor invariant preservation (per operation) -/

namespace MultiLineInputBox

theorem Inv.move_left {st : MultiLineInputBox} (h : st.Inv) :
    st._move_left.Inv := by
  obtain ⟨h0, hr, hc⟩ := h
  unfold _move_left
  split
  · exact ⟨h0, hr, by simpa [cur_line] using Nat.le_trans (Nat.sub_le _ _) hc⟩
  · split
    · exact ⟨h0, by dsimp only; omega, by simp [cur_line]⟩
    · exact ⟨h0, hr, hc⟩

theorem Inv.move_right {st : MultiLineInputBox} (h : st.Inv) :
    st._move_right.Inv := by
  obtain ⟨h0, hr, hc⟩ := h
  unfold _move_right
  split
  · next hlt => exact ⟨h0, hr, by simpa [cur_line] using hlt⟩
  · split
    · next hrow => exact ⟨h0, by dsimp only; omega, by simp [cur_line]⟩
    · exact ⟨h0, hr, hc⟩

theorem Inv.move_up {st : MultiLineInputBox} (h : st.Inv) :
    st._move_up.Inv := by
  obtain ⟨h0, hr, hc⟩ := h
  unfold _move_up
  split
  · exact ⟨h0, by dsimp only; omega, by simp [cur_line]⟩
  · exact ⟨h0, hr, hc⟩

theorem Inv.move_down {st : MultiLineInputBox} (h : st.Inv) :
    st._move_down.Inv := by
  obtain ⟨h0, hr, hc⟩ := h
  unfold _move_down
  split
  · next hrow => exact ⟨h0, by dsimp only; omega, by simp [cur_line]⟩
  · exact ⟨h0, hr, hc⟩

theorem Inv.delete_backwards {st : MultiLineInputBox} (h : st.Inv) :
    st._delete_backwards.Inv := by
  obtain ⟨h0, hr, hc⟩ := h
  have hc' : st.cursor_col ≤ (st.lines.getD st.cursor_row []).length := hc
  unfold _delete_backwards
  split
  · next hcol =>
    refine ⟨by simpa using h0, by simpa using hr, ?_⟩
    simp only [cur_line]
    rw [getD_set_self hr]
    simp only [List.length_append, List.length_take, List.length_drop]
    omega
  · split
    · next hrow =>
      have hlen : (st.lines.eraseIdx st.cursor_row).length = st.lines.length - 1 := by
        rw [List.length_eraseIdx]; simp [hr]
      have hr' : st.cursor_row - 1 < st.lines.length - 1 := by dsimp only; omega
      refine ⟨?_, ?_, ?_⟩
      · simp only [List.length_set, hlen]; omega
      · simp only [List.length_set, hlen]; omega
      · simp only [cur_line]
        rw [getD_set_self (by rw [hlen]; omega)]
        simp
    · exact ⟨h0, hr, hc⟩

theorem Inv.delete_word_backwards {st : MultiLineInputBox} (h : st.Inv) :
    st._delete_word_backwards.Inv := by
  obtain ⟨h0, hr, hc⟩ := h
  have hc' : st.cursor_col ≤ (st.lines.getD st.cursor_row []).length := hc
  have hlen : ∀ v : List Char,
      ((st.lines.set (st.cursor_row - 1) v).eraseIdx st.cursor_row).length
        = st.lines.length - 1 := by
    intro v; rw [List.length_eraseIdx]; simp [hr]
  unfold _delete_word_backwards
  split
  · next hmerge =>
    obtain ⟨hcol, hrow⟩ := hmerge
    refine ⟨?_, ?_, ?_⟩
    · dsimp only; rw [hlen]; omega
    · dsimp only; rw [hlen]; omega
    · simp only [cur_line]
      rw [getD_eraseIdx_lt (by omega), getD_set_self (by omega)]
      simp
  · refine ⟨by simpa using h0, by simpa using hr, ?_⟩
    simp only [cur_line]
    rw [getD_set_self hr]
    have h1 := skip_space_back_le (st.lines.getD st.cursor_row []) st.cursor_col
    have h2 := skip_word_back_le (st.lines.getD st.cursor_row [])
      (skip_space_back (st.lines.getD st.cursor_row []) st.cursor_col)
    simp only [List.length_append, List.length_take, List.length_drop]
    omega

theorem Inv.kill_to_end {st : MultiLineInputBox} (h : st.Inv) :
    st._kill_to_end.Inv := by
  obtain ⟨h0, hr, hc⟩ := h
  have hc' : st.cursor_col ≤ (st.lines.getD st.cursor_row []).length := hc
  unfold _kill_to_end
  refine ⟨by simpa using h0, by simpa using hr, ?_⟩
  simp only [cur_line]
  rw [getD_set_self hr]
  simp only [List.length_take]
  omega

theorem Inv.insert_text {st : MultiLineInputBox} (h : st.Inv) (s : List Char) :
    (st._insert_text s).Inv := by
  obtain ⟨h0, hr, hc⟩ := h
  have hc' : st.cursor_col ≤ (st.lines.getD st.cursor_row []).length := hc
  unfold _insert_text
  refine ⟨by simpa using h0, by simpa using hr, ?_⟩
  simp only [cur_line]
  rw [getD_set_self hr]
  simp only [List.length_append, List.length_take, List.length_drop]
  omega

theorem Inv.set_text (st : MultiLineInputBox) (t : List Char) :
    (st.set_text t).Inv := by
  have h0 : 0 < (split_nl t).length := List.length_pos.mpr (split_nl_ne_nil t)
  simp only [MultiLineInputBox.set_text, if_neg (split_nl_ne_nil t)]
  exact ⟨h0, by dsimp only; omega, by simp [cur_line]⟩

theorem Inv.clear (st : MultiLineInputBox) : st.clear.Inv := by
  simp [MultiLineInputBox.clear, MultiLineInputBox.Inv, cur_line]

theorem recall_history_fields (st : MultiLineInputBox) (d : Int) :
    (st.recall_history d).1.lines = st.lines ∧
    (st.recall_history d).1.cursor_row = st.cursor_row ∧
    (st.recall_history d).1.cursor_col = st.cursor_col := by
  unfold recall_history
  split
  · exact ⟨rfl, rfl, rfl⟩
  · cases st.history_idx
    · dsimp only
      split <;> exact ⟨rfl, rfl, rfl⟩
    · exact ⟨rfl, rfl, rfl⟩

theorem Inv.recall_history {st : MultiLineInputBox} (h : st.Inv) (d : Int) :
    (st.recall_history d).1.Inv := by
  obtain ⟨f1, f2, f3⟩ := recall_history_fields st d
  obtain ⟨h0, hr, hc⟩ := h
  exact ⟨by rw [f1]; exact h0, by rw [f1, f2]; exact hr,
    by simp only [cur_line, f1, f2, f3]; exact hc⟩

end MultiLineInputBox

/-! ### C9 — invariant preservation -/

/-- C9: every Input Editor operation reachable through `handle_key`
(cursor movement by character or line, character and word deletions,
line joins, kill-to-end, insertion, clear, history recall) as well as
`set_text` preserves the invariant that the line list is non-empty and
the cursor satisfies `row < len(lines)` and `col ≤ len(lines[row])`. -/
theorem editor_invariant_preserved (st : MultiLineInputBox) (k : Key)
    (t : List Char) (h : st.Inv) :
    (st.handle_key k).1.Inv ∧ (st.set_text t).Inv := by
  refine ⟨?_, MultiLineInputBox.Inv.set_text st t⟩
  obtain ⟨h0, hr, hc⟩ := h
  have hc' : st.cursor_col ≤ (st.lines.getD st.cursor_row []).length := hc
  cases k with
  | backspace => exact MultiLineInputBox.Inv.delete_backwards ⟨h0, hr, hc⟩
  | deleteKey =>
    simp only [MultiLineInputBox.handle_key]
    split
    · next hlt =>
      refine ⟨by simpa using h0, by simpa using hr, ?_⟩
      simp only [MultiLineInputBox.cur_line]
      rw [getD_set_self hr]
      simp only [List.length_append, List.length_take, List.length_drop]
      simp only [MultiLineInputBox.cur_line] at hlt
      omega
    · split
      · next hrow =>
        have hlen : (st.lines.eraseIdx (st.cursor_row + 1)).length
            = st.lines.length - 1 := by
          rw [List.length_eraseIdx]; simp only [if_pos (by omega : st.cursor_row + 1 < st.lines.length)]
        refine ⟨?_, ?_, ?_⟩
        · dsimp only; rw [List.length_set, hlen]; omega
        · dsimp only; rw [List.length_set, hlen]; omega
        · simp only [MultiLineInputBox.cur_line]
          rw [getD_set_self (by rw [hlen]; omega)]
          simp only [List.length_append]
          omega
      · exact ⟨h0, hr, hc⟩
  | leftArrow => exact MultiLineInputBox.Inv.move_left ⟨h0, hr, hc⟩
  | rightArrow => exact MultiLineInputBox.Inv.move_right ⟨h0, hr, hc⟩
  | upArrow =>
    simp only [MultiLineInputBox.handle_key]
    split
    · exact MultiLineInputBox.Inv.move_up ⟨h0, hr, hc⟩
    · cases hrec : (st.recall_history (-1)).2 with
      | some t' =>
        simp only [hrec]
        exact MultiLineInputBox.Inv.set_text _ t'
      | none =>
        simp only [hrec]
        exact MultiLineInputBox.Inv.recall_history ⟨h0, hr, hc⟩ (-1)
  | downArrow =>
    simp only [MultiLineInputBox.handle_key]
    split
    · exact MultiLineInputBox.Inv.move_down ⟨h0, hr, hc⟩
    · cases hrec : (st.recall_history 1).2 with
      | some t' =>
        simp only [hrec]
        exact MultiLineInputBox.Inv.set_text _ t'
      | none =>
        simp only [hrec]
        exact MultiLineInputBox.Inv.recall_history ⟨h0, hr, hc⟩ 1
  | homeKey => exact ⟨h0, hr, Nat.zero_le _⟩
  | endKey => exact ⟨h0, hr, Nat.le_refl _⟩
  | ctrlU => exact MultiLineInputBox.Inv.clear st
  | ctrlW => exact MultiLineInputBox.Inv.delete_word_backwards ⟨h0, hr, hc⟩
  | ctrlK => exact MultiLineInputBox.Inv.kill_to_end ⟨h0, hr, hc⟩
  | enterKey => exact ⟨h0, hr, hc⟩
  | tabKey => exact MultiLineInputBox.Inv.insert_text ⟨h0, hr, hc⟩ _
  | char c =>
    simp only [MultiLineInputBox.handle_key]
    split
    · exact MultiLineInputBox.Inv.insert_text ⟨h0, hr, hc⟩ _
    · exact ⟨h0, hr, hc⟩

/-- Witness for C9 at a concrete state and key. -/
theorem editor_invariant_preserved_witness :
    MultiLineInputBox.initial.Inv ∧
    (MultiLineInputBox.initial.handle_key Key.backspace).1.Inv ∧
    (MultiLineInputBox.initial.set_text ['a']).Inv :=
  ⟨by decide,
   (editor_invariant_preserved MultiLineInputBox.initial Key.backspace ['a']
     (by decide)).1,
   (editor_invariant_preserved MultiLineInputBox.initial Key.backspace ['a']
     (by decide)).2⟩

/-! ### C7 — insert/delete round trip -/

theorem insert_nil {st : MultiLineInputBox} (h : st.Inv) :
    st._insert_text [] = st := by
  obtain ⟨h0, hr, hc⟩ := h
  unfold MultiLineInputBox._insert_text
  simp only [MultiLineInputBox.cur_line, List.nil_append, List.append_nil,
    List.length_nil, Nat.add_zero, List.take_append_drop]
  rw [set_getD_self hr]

theorem delete_insert_snoc {st : MultiLineInputBox} (h : st.Inv)
    (s : List Char) (c : Char) :
    (st._insert_text (s ++ [c]))._delete_backwards = st._insert_text s := by
  obtain ⟨h0, hr, hc⟩ := h
  have htake : (st.cur_line.take st.cursor_col).length = st.cursor_col := by
    simp only [List.length_take]
    exact Nat.min_eq_left hc
  unfold MultiLineInputBox._insert_text MultiLineInputBox._delete_backwards
  simp only [MultiLineInputBox.cur_line]
  rw [if_pos (by simp only [List.length_append, List.length_cons]; omega)]
  rw [getD_set_self hr]
  rw [List.set_set]
  have hsplit :
      st.cur_line.take st.cursor_col ++ (s ++ [c]) ++ st.cur_line.drop st.cursor_col
        = (st.cur_line.take st.cursor_col ++ s) ++
            ([c] ++ st.cur_line.drop st.cursor_col) := by
    simp [List.append_assoc]
  have hlen1 : (st.cur_line.take st.cursor_col ++ s).length
      = st.cursor_col + s.length := by
    simp [htake]
  have hlen2 : ((st.cur_line.take st.cursor_col ++ s) ++ [c]).length
      = st.cursor_col + s.length + 1 := by
    simp only [List.length_append, htake, List.length_cons, List.length_nil]
  simp only [MultiLineInputBox.cur_line] at hsplit hlen1 hlen2 ⊢
  rw [hsplit]
  have harith : st.cursor_col + (s ++ [c]).length - 1 = st.cursor_col + s.length := by
    simp only [List.length_append, List.length_cons, List.length_nil]
    omega
  rw [harith]
  rw [List.take_left' hlen1]
  have hsplit2 :
      (st.lines.getD st.cursor_row []).take st.cursor_col ++ s ++
          ([c] ++ (st.lines.getD st.cursor_row []).drop st.cursor_col)
        = (((st.lines.getD st.cursor_row []).take st.cursor_col ++ s) ++ [c]) ++
            (st.lines.getD st.cursor_row []).drop st.cursor_col := by
    simp [List.append_assoc]
  have hidx : st.cursor_col + (s ++ [c]).length = st.cursor_col + s.length + 1 := by
    simp only [List.length_append, List.length_cons, List.length_nil]
    omega
  rw [hsplit2, hidx, List.drop_left' hlen2]

/-- C7: for every editor state satisfying the invariant, inserting a
string `s` at the cursor and then applying backward-delete `len(s)`
times restores exactly the original buffer and cursor (proved for every
string `s`, hence in particular for printable newline-free ones). -/
theorem insert_delete_roundtrip (st : MultiLineInputBox) (s : List Char)
    (h : st.Inv) :
    MultiLineInputBox._delete_backwards^[s.length] (st._insert_text s) = st := by
  induction s using List.reverseRecOn with
  | nil => simpa using insert_nil h
  | append_singleton s c ih =>
    have hlen : (s ++ [c]).length = s.length + 1 := by simp
    rw [hlen, Function.iterate_succ_apply, delete_insert_snoc h s c]
    exact ih

/-- Witness for C7: inserting "hi" into the fresh editor and deleting
twice restores the fresh editor. -/
theorem insert_delete_roundtrip_witness :
    MultiLineInputBox.initial.Inv ∧
    MultiLineInputBox._delete_backwards^[2]
      (MultiLineInputBox.initial._insert_text ['h', 'i'])
      = MultiLineInputBox.initial :=
  ⟨by decide,
   insert_delete_roundtrip MultiLineInputBox.initial ['h', 'i'] (by decide)⟩

/-! ### C8 — history recall at the boundaries -/

/-- C8 counterexample: with history `["x"]` and the recall index on the
newest entry, pressing Down (recall "newer" past the newest entry)
neither empties the buffer nor leaves the current buffer `["y"]`
untouched — it loads the newest history entry `["x"]` again. -/
theorem history_recall_newer_counterexample :
    recall_probe.history_idx = some (recall_probe.history.length - 1) ∧
    (recall_probe.handle_key Key.downArrow).1.lines ≠ [[]] ∧
    (recall_probe.handle_key Key.downArrow).1.lines ≠ recall_probe.lines ∧
    (recall_probe.handle_key Key.downArrow).1.lines = [['x']] := by decide

/-- C8 amended: for every non-empty history, recall clamps at both
boundaries rather than wrapping: recalling "older" at the oldest entry
keeps returning the oldest entry (and keeps the index there, so
repetition is idempotent); recalling "newer" at the newest entry keeps
returning the newest entry (it does not return to an empty/current
buffer); recalling "newer" while not recalling returns nothing, leaving
the current buffer untouched. -/
theorem history_recall_clamps (st : MultiLineInputBox)
    (hne : st.history ≠ []) :
    (st.history_idx = some 0 →
      st.recall_history (-1)
        = ({ st with history_idx := some 0 }, some (st.history.getD 0 []))) ∧
    (st.history_idx = some (st.history.length - 1) →
      st.recall_history 1
        = ({ st with history_idx := some (st.history.length - 1) },
           some (st.history.getD (st.history.length - 1) []))) ∧
    (st.history_idx = none → st.recall_history 1 = (st, none)) := by
  have hlen : 0 < st.history.length := List.length_pos.mpr hne
  refine ⟨?_, ?_, ?_⟩
  · intro hidx
    unfold MultiLineInputBox.recall_history
    rw [if_neg hne, hidx]
    norm_num
  · intro hidx
    unfold MultiLineInputBox.recall_history
    rw [if_neg hne, hidx]
    dsimp only
    rw [if_neg (by omega), if_pos (by omega)]
  · intro hidx
    unfold MultiLineInputBox.recall_history
    rw [if_neg hne, hidx]
    dsimp only
    rw [if_neg (by norm_num)]

/-- Witness for the amended C8 at a concrete editor state. -/
theorem history_recall_clamps_witness :
    recall_probe.history ≠ [] ∧
    (recall_probe.recall_history (-1)
      = ({ recall_probe with history_idx := some 0 }, some ['x'])) :=
  ⟨by decide,
   (history_recall_clamps recall_probe (by decide)).1 (by decide)⟩

/-! ### C10 — `get_text` and trailing empty lines -/

theorem split_nl_length (l : List Char) :
    (split_nl l).length = 1 + l.count '\n' := by
  induction l with
  | nil => simp [split_nl]
  | cons c rest ih =>
    unfold split_nl
    cases h : split_nl rest with
    | nil => exact absurd h (split_nl_ne_nil rest)
    | cons a as =>
      rw [h] at ih
      by_cases hc : c = '\n'
      · subst hc
        simp only [List.count_cons, beq_iff_eq, if_pos rfl, List.length_cons]
        simp at ih ⊢
        omega
      · simp only [List.count_cons, beq_iff_eq, if_neg hc, List.length_cons]
        simp [hc] at ih ⊢
        omega

theorem join_nl_count (ls : List (List Char)) (h : ∀ l ∈ ls, '\n' ∉ l)
    (hne : ls ≠ []) : (join_nl ls).count '\n' = ls.length - 1 := by
  induction ls with
  | nil => exact absurd rfl hne
  | cons l rest ih =>
    cases rest with
    | nil =>
      simp only [join_nl, List.length_cons, List.length_nil]
      rw [List.count_eq_zero.mpr (h l (by simp))]
    | cons m ms =>
      have hrest : (join_nl (m :: ms)).count '\n' = (m :: ms).length - 1 :=
        ih (fun x hx => h x (by simp [hx])) (by simp)
      show (l ++ '\n' :: join_nl (m :: ms)).count '\n' = (l :: m :: ms).length - 1
      rw [List.count_append, List.count_cons, List.count_eq_zero.mpr (h l (by simp))]
      simp only [beq_iff_eq, if_pos rfl] at hrest ⊢
      simp at hrest ⊢
      omega

theorem join_nl_snoc_nil (ls : List (List Char)) (hne : ls ≠ []) :
    join_nl (ls ++ [[]]) = join_nl ls ++ ['\n'] := by
  induction ls with
  | nil => exact absurd rfl hne
  | cons l rest ih =>
    cases rest with
    | nil => simp [join_nl]
    | cons m ms =>
      have := ih (by simp)
      show l ++ '\n' :: join_nl ((m :: ms) ++ [[]])
        = (l ++ '\n' :: join_nl (m :: ms)) ++ ['\n']
      rw [this]
      simp

theorem rstrip_nl_snoc_nl (l : List Char) :
    rstrip_nl (l ++ ['\n']) = rstrip_nl l := by
  simp [rstrip_nl, List.dropWhile]

theorem count_rstrip_le (l : List Char) :
    (rstrip_nl l).count '\n' ≤ l.count '\n' := by
  unfold rstrip_nl
  rw [List.count_reverse]
  calc (l.reverse.dropWhile (· == '\n')).count '\n'
      ≤ l.reverse.count '\n' :=
        (List.dropWhile_sublist (· == '\n')).count_le '\n'
    _ = l.count '\n' := List.count_reverse '\n' l

/-- C10 counterexample: the buffer consisting of the single empty line
ends in an empty line, yet `set_text (get_text st)` is exactly the
identity on it — so "`set_text` composed with `get_text` is not the
identity on buffers that end in one or more empty lines" fails as a
universal statement. -/
theorem set_get_identity_counterexample :
    MultiLineInputBox.initial.lines.getLast?.getD ['x'] = [] ∧
    MultiLineInputBox.initial.set_text MultiLineInputBox.initial.get_text
      = MultiLineInputBox.initial := by decide

/-- C10 amended: `get_text` returns the lines joined with newlines with
all trailing newline characters stripped (so `["h","i",""]` yields
`"h\ni"`), and `set_text` composed with `get_text` is not the identity
on any buffer of at least two newline-free lines whose last line is
empty (the one-empty-line buffer, which also "ends in an empty line",
is the single fixed point the original claim overlooked). -/
theorem get_text_strips_trailing (st : MultiLineInputBox)
    (h2 : 2 ≤ st.lines.length)
    (hlast : st.lines.getLast?.getD ['x'] = [])
    (hnl : ∀ l ∈ st.lines, '\n' ∉ l) :
    st.get_text = rstrip_nl (join_nl st.lines) ∧
    st.set_text st.get_text ≠ st := by
  refine ⟨rfl, ?_⟩
  intro heq
  have hne : st.lines ≠ [] := by
    intro hnil; rw [hnil] at h2; simp at h2
  have hlast' : st.lines.getLast hne = [] := by
    rw [List.getLast?_eq_getLast st.lines hne] at hlast
    simpa using hlast
  have hdl : st.lines.dropLast ++ [[]] = st.lines := by
    rw [← hlast']
    exact List.dropLast_append_getLast hne
  have hdlne : st.lines.dropLast ≠ [] := by
    have : st.lines.dropLast.length = st.lines.length - 1 := by
      simp [List.length_dropLast]
    intro hnil
    rw [hnil] at this
    simp at this
    omega
  have hjoin : join_nl st.lines = join_nl st.lines.dropLast ++ ['\n'] := by
    conv_lhs => rw [← hdl]
    exact join_nl_snoc_nil st.lines.dropLast hdlne
  have hcount : (st.get_text).count '\n' ≤ st.lines.length - 2 := by
    unfold MultiLineInputBox.get_text
    rw [hjoin, rstrip_nl_snoc_nl]
    calc (rstrip_nl (join_nl st.lines.dropLast)).count '\n'
        ≤ (join_nl st.lines.dropLast).count '\n' := count_rstrip_le _
      _ = st.lines.dropLast.length - 1 := by
          refine join_nl_count _ (fun l hl => ?_) hdlne
          exact hnl l (List.dropLast_subset _ hl)
      _ ≤ st.lines.length - 2 := by
          simp only [List.length_dropLast]
          omega
  have hlines : (st.set_text st.get_text).lines = split_nl st.get_text := by
    simp only [MultiLineInputBox.set_text, if_neg (split_nl_ne_nil st.get_text)]
  have hlen : (st.set_text st.get_text).lines.length < st.lines.length := by
    rw [hlines, split_nl_length]
    omega
  rw [heq] at hlen
  exact Nat.lt_irrefl _ hlen

/-- Witness for the amended C10 at the buffer `["h","i",""]`. -/
theorem get_text_strips_trailing_witness :
    draft_hi_trailing.get_text = ['h', '\n', 'i'] ∧
    draft_hi_trailing.set_text draft_hi_trailing.get_text ≠ draft_hi_trailing :=
  ⟨by decide,
   (get_text_strips_trailing draft_hi_trailing (by decide) (by decide)
     (by decide)).2⟩

/-! ### C2 — failed dispatch never loses the draft -/

/-- C2: pressing Enter returns the buffer's joined text and leaves the
buffer unchanged; the application clears the buffer and pushes the text
into history exactly when `_send_current_message` reports success, and
for a Dispatch-Port failure (a falsy return or an exception) the buffer
is untouched, an error message is recorded, and focus returns to the
message pane. -/
theorem submit_preserves_draft (app : AppState) (sb : SendBehavior)
    (conv : Conversation)
    (hfind : app.conversations.find?
        (fun c => app.selected_chat_id == some c.chat_id) = some conv)
    (hsel : ¬ (app.selected_chat_id.getD 0 = 0 ∨ app.conversations = []))
    (hblank : is_blank app.input_box.get_text = false) :
    (app.input_box.handle_key Key.enterKey
       = (app.input_box, some app.input_box.get_text)) ∧
    (sb = SendBehavior.returnsFalse →
      (MessagesTUI.input_key_step app Key.enterKey sb).input_box = app.input_box ∧
      (MessagesTUI.input_key_step app Key.enterKey sb).error_message
        = "Failed to send message".toList ∧
      (MessagesTUI.input_key_step app Key.enterKey sb).focus = Focus.messages) ∧
    (∀ e, sb = SendBehavior.raises e →
      (MessagesTUI.input_key_step app Key.enterKey sb).input_box = app.input_box ∧
      (MessagesTUI.input_key_step app Key.enterKey sb).error_message
        = "Send error: ".toList ++ e.take 80 ∧
      (MessagesTUI.input_key_step app Key.enterKey sb).focus = Focus.messages) ∧
    (sb = SendBehavior.succeeds →
      (MessagesTUI.input_key_step app Key.enterKey sb).input_box
        = (app.input_box.push_history app.input_box.get_text).clear ∧
      (MessagesTUI.input_key_step app Key.enterKey sb).focus = Focus.messages) := by
  have henter : app.input_box.handle_key Key.enterKey
      = (app.input_box, some app.input_box.get_text) := rfl
  have happ1 : ({ app with input_box := app.input_box } : AppState) = app := rfl
  have hstep : ∀ sb', MessagesTUI.input_key_step app Key.enterKey sb'
      = (let s := MessagesTUI._send_current_message app sb' app.input_box.get_text
         let app3 := if s.1 then
             { s.2 with input_box := (s.2.input_box.push_history
                 app.input_box.get_text).clear }
           else s.2
         { app3 with focus := Focus.messages }) := by
    intro sb'
    unfold MessagesTUI.input_key_step
    rw [henter]
  have hsend : ∀ sb', MessagesTUI._send_current_message app sb' app.input_box.get_text
      = (match sb' with
         | SendBehavior.succeeds =>
             (true, { app with status_message := "Message sent!".toList })
         | SendBehavior.returnsFalse =>
             (false, { app with error_message := "Failed to send message".toList })
         | SendBehavior.raises e =>
             (false, { app with error_message :=
                 "Send error: ".toList ++ e.take 80 })) := by
    intro sb'
    unfold MessagesTUI._send_current_message
    rw [if_neg (by rw [hblank]; exact Bool.false_ne_true), if_neg hsel, hfind]
  refine ⟨henter, ?_, ?_, ?_⟩
  · rintro rfl
    rw [hstep, hsend]
    exact ⟨rfl, rfl, rfl⟩
  · rintro e rfl
    rw [hstep, hsend]
    exact ⟨rfl, rfl, rfl⟩
  · rintro rfl
    rw [hstep, hsend]
    exact ⟨rfl, rfl⟩

/-- Witness for C2: a concrete app state with a selected conversation, a
pending two-line draft, and a Dispatch Port that returns failure. -/
theorem submit_preserves_draft_witness :
    (MessagesTUI.input_key_step app_probe Key.enterKey
        SendBehavior.returnsFalse).input_box = app_probe.input_box ∧
    (MessagesTUI.input_key_step app_probe Key.enterKey
        SendBehavior.returnsFalse).error_message
      = "Failed to send message".toList ∧
    (MessagesTUI.input_key_step app_probe Key.enterKey
        SendBehavior.returnsFalse).focus = Focus.messages :=
  (submit_preserves_draft app_probe SendBehavior.returnsFalse
    { chat_id := 1, chat_identifier := ['a'] } (by decide) (by decide)
    (by decide)).2.1 rfl

/-! ### Watcher: store-level lemmas -/

theorem max_rowid_cons (m : Msg) (l : List Msg) :
    max_rowid (m :: l) = max m.rowid (max_rowid l) := rfl

theorem mem_le_max_rowid {m : Msg} {l : List Msg} (h : m ∈ l) :
    m.rowid ≤ max_rowid l := by
  induction l with
  | nil => simp at h
  | cons a as ih =>
    rw [max_rowid_cons]
    rcases List.mem_cons.mp h with heq | hmem
    · rw [heq]; exact Nat.le_max_left _ _
    · exact Nat.le_trans (ih hmem) (Nat.le_max_right _ _)

theorem max_rowid_lt_iff {l : List Msg} {k : Nat} :
    max_rowid l < k ↔ (0 < k ∧ ∀ m ∈ l, m.rowid < k) := by
  induction l with
  | nil => simp [max_rowid]
  | cons a as ih =>
    rw [max_rowid_cons]
    constructor
    · intro h
      have h1 : a.rowid < k := Nat.lt_of_le_of_lt (Nat.le_max_left _ _) h
      have h2 : max_rowid as < k := Nat.lt_of_le_of_lt (Nat.le_max_right _ _) h
      obtain ⟨hk, hall⟩ := ih.mp h2
      refine ⟨hk, ?_⟩
      intro m hm
      rcases List.mem_cons.mp hm with heq | hmem
      · exact heq ▸ h1
      · exact hall m hmem
    · rintro ⟨hk, hall⟩
      have h2 : max_rowid as < k := ih.mpr ⟨hk, fun m hm => hall m (by simp [hm])⟩
      exact Nat.max_lt.mpr ⟨hall a (by simp), h2⟩

theorem StoreOk.of_append_left {pre suf : List Msg} (h : StoreOk (pre ++ suf)) :
    StoreOk pre := by
  obtain ⟨h1, h2, h3⟩ := h
  exact ⟨h1.sublist (List.sublist_append_left pre suf),
         h2.sublist (List.sublist_append_left pre suf),
         fun m hm => h3 m (by simp [hm])⟩

theorem StoreOk.suffix_gt {pre suf : List Msg} (h : StoreOk (pre ++ suf)) :
    ∀ m ∈ suf, max_rowid pre < m.rowid := by
  obtain ⟨h1, _, h3⟩ := h
  intro m hm
  rw [max_rowid_lt_iff]
  refine ⟨h3 m (by simp [hm]), ?_⟩
  intro x hx
  exact (List.pairwise_append.mp h1).2.2 x hx m hm

theorem filter_append_suffix {pre suf : List Msg} (h : StoreOk (pre ++ suf)) :
    (pre ++ suf).filter (fun m => decide (max_rowid pre < m.rowid)) = suf := by
  rw [List.filter_append]
  have h1 : pre.filter (fun m => decide (max_rowid pre < m.rowid)) = [] := by
    rw [List.filter_eq_nil_iff]
    intro m hm
    simp only [decide_eq_true_eq]
    exact fun hlt => Nat.not_le.mpr hlt (mem_le_max_rowid hm)
  have h2 : suf.filter (fun m => decide (max_rowid pre < m.rowid)) = suf := by
    rw [List.filter_eq_self]
    intro m hm
    simp only [decide_eq_true_eq]
    exact h.suffix_gt m hm
  rw [h1, h2, List.nil_append]

theorem max_rowid_append_le (pre suf : List Msg) :
    max_rowid pre ≤ max_rowid (pre ++ suf) := by
  induction pre with
  | nil => simp [max_rowid]
  | cons a as ih =>
    rw [List.cons_append, max_rowid_cons, max_rowid_cons]
    exact max_le_max (Nat.le_refl _) ih

theorem max_rowid_append_lt {pre suf : List Msg} (h : StoreOk (pre ++ suf))
    (hne : suf ≠ []) : max_rowid pre < max_rowid (pre ++ suf) := by
  obtain ⟨m, hm⟩ := List.exists_mem_of_ne_nil suf hne
  exact Nat.lt_of_lt_of_le (h.suffix_gt m hm)
    (mem_le_max_rowid (by simp [hm]))

theorem get_new_messages_eq {s : Store} {pre suf : List Msg}
    (heq : s.msgs = pre ++ suf) (h : StoreOk s.msgs) :
    MessageWatcher.get_new_messages s (max_rowid pre) = suf := by
  rw [heq] at h
  unfold MessageWatcher.get_new_messages
  rw [heq, filter_append_suffix h]
  exact List.Sorted.insertionSort_eq
    (h.2.1.sublist (List.sublist_append_right pre suf))

theorem chain_extends {s : Store} {ss : List Store}
    (h : List.Chain StoreStep s ss) :
    ∃ suf, (ss.getLastD s).msgs = s.msgs ++ suf := by
  induction ss generalizing s with
  | nil => exact ⟨[], by simp⟩
  | cons s' rest ih =>
    rcases h with _ | ⟨hstep, hchain⟩
    obtain ⟨new, hnew⟩ := hstep.1
    obtain ⟨suf, hsuf⟩ := ih hchain
    refine ⟨new ++ suf, ?_⟩
    rw [List.getLastD_cons, hsuf, hnew, List.append_assoc]

/-! ### Watcher: event-list lemmas -/

theorem delivered_to_append (i : Nat) (a b : List Ev) :
    delivered_to i (a ++ b) = delivered_to i a ++ delivered_to i b := by
  unfold delivered_to
  exact List.flatMap_append a b _

theorem delivered_to_eq_nil (i : Nat) (evs : List Ev)
    (h : ∀ j b, Ev.msgDelivery j b ∉ evs) : delivered_to i evs = [] := by
  induction evs with
  | nil => rfl
  | cons e es ih =>
    have he : ∀ j b, Ev.msgDelivery j b ∉ es := fun j b hb => h j b (by simp [hb])
    have htail : delivered_to i es = [] := ih he
    unfold delivered_to at htail ⊢
    rw [List.flatMap_cons, htail, List.append_nil]
    cases e with
    | msgDelivery j b => exact absurd (by simp) (h j b)
    | convDelivery o s => rfl
    | errDelivery o => rfl

theorem no_msg_in_notify_error (env : TickEnv) :
    ∀ j b, Ev.msgDelivery j b ∉ notify_error env := by
  intro j b hb
  unfold notify_error at hb
  obtain ⟨x, _, hx⟩ := List.mem_map.mp hb
  exact Ev.noConfusion hx

theorem no_msg_in_deliver_convs (env : TickEnv) :
    ∀ j b, Ev.msgDelivery j b ∉ deliver_convs env := by
  intro j b hb
  unfold deliver_convs at hb
  obtain ⟨x, _, hx⟩ := List.mem_flatMap.mp hb
  rcases List.mem_cons.mp hx with h | h
  · exact Ev.noConfusion h
  · split at h
    · exact no_msg_in_notify_error env j b h
    · simp at h

theorem delivered_to_notify_error (i : Nat) (env : TickEnv) :
    delivered_to i (notify_error env) = [] :=
  delivered_to_eq_nil i _ (no_msg_in_notify_error env)

theorem delivered_to_deliver_convs (i : Nat) (env : TickEnv) :
    delivered_to i (deliver_convs env) = [] :=
  delivered_to_eq_nil i _ (no_msg_in_deliver_convs env)

theorem delivered_to_single_msg (i j : Nat) (batch : List Msg) :
    delivered_to i [Ev.msgDelivery j batch] = if j = i then batch else [] := by
  unfold delivered_to
  simp only [List.flatMap_cons, List.flatMap_nil, List.append_nil]

theorem delivered_to_deliver_msgs_sub {i : Nat} {env : TickEnv}
    {batch : List Msg} {m : Msg}
    (h : m ∈ delivered_to i (deliver_msgs env batch)) : m ∈ batch := by
  unfold deliver_msgs at h
  generalize List.range env.num_msg_cbs = l at h
  induction l with
  | nil => simp [delivered_to] at h
  | cons a as ih =>
    rw [List.flatMap_cons, delivered_to_append] at h
    rcases List.mem_append.mp h with h1 | h1
    · have hsplit : (Ev.msgDelivery a batch ::
          (if env.msg_cb_raises a = true then notify_error env else []))
          = [Ev.msgDelivery a batch] ++
            (if env.msg_cb_raises a = true then notify_error env else []) := rfl
      rw [hsplit, delivered_to_append] at h1
      rcases List.mem_append.mp h1 with h2 | h2
      · rw [delivered_to_single_msg] at h2
        split at h2
        · exact h2
        · simp at h2
      · have : delivered_to i
            (if env.msg_cb_raises a = true then notify_error env else []) = [] := by
          split
          · exact delivered_to_notify_error i env
          · rfl
        rw [this] at h2
        simp at h2
    · exact ih h1

theorem delivered_to_msgs_not_mem (i : Nat) (batch : List Msg) :
    ∀ l : List Nat, i ∉ l →
      delivered_to i (l.flatMap fun j => [Ev.msgDelivery j batch]) = [] := by
  intro l
  induction l with
  | nil => intro _; rfl
  | cons a as ih =>
    intro hnin
    rw [List.flatMap_cons, delivered_to_append,
      ih (fun hmem => hnin (by simp [hmem])), delivered_to_single_msg,
      if_neg (fun heq => hnin (by simp [heq])), List.nil_append]

theorem delivered_to_msgs_nodup_mem (i : Nat) (batch : List Msg) :
    ∀ l : List Nat, l.Nodup → i ∈ l →
      delivered_to i (l.flatMap fun j => [Ev.msgDelivery j batch]) = batch := by
  intro l
  induction l with
  | nil => intro _ hil; simp at hil
  | cons a as ih =>
    intro hl hil
    rw [List.flatMap_cons, delivered_to_append, delivered_to_single_msg]
    by_cases hai : a = i
    · subst hai
      rw [if_pos rfl,
        delivered_to_msgs_not_mem a batch as (List.nodup_cons.mp hl).1,
        List.append_nil]
    · have hias : i ∈ as := by
        rcases List.mem_cons.mp hil with heq | hmem
        · exact absurd heq.symm hai
        · exact hmem
      rw [if_neg hai, List.nil_append]
      exact ih (List.nodup_cons.mp hl).2 hias

theorem deliver_msgs_pure (n_msg n_conv n_err : Nat) (s : Store)
    (batch : List Msg) :
    deliver_msgs (pure_env n_msg n_conv n_err s) batch
      = (List.range n_msg).flatMap fun j => [Ev.msgDelivery j batch] := by
  unfold deliver_msgs pure_env
  simp

theorem delivered_to_deliver_msgs_pure (i n_msg n_conv n_err : Nat)
    (s : Store) (batch : List Msg) (hi : i < n_msg) :
    delivered_to i (deliver_msgs (pure_env n_msg n_conv n_err s) batch) = batch := by
  rw [deliver_msgs_pure]
  exact delivered_to_msgs_nodup_mem i batch (List.range n_msg)
    (List.nodup_range n_msg) (List.mem_range.mpr hi)

/-! ### Watcher: tick and loop lemmas -/

theorem poll_loop_cons (env : TickEnv) (rest : List TickEnv) (w : WatcherState) :
    poll_loop (env :: rest) w
      = ((poll_loop rest (poll_tick env w).1).1,
         (poll_tick env w).2 ++ (poll_loop rest (poll_tick env w).1).2) := rfl

theorem poll_tick_skip (env : TickEnv) (w : WatcherState)
    (h : env.store.mtime ≤ w._last_mtime) : poll_tick env w = (w, []) := by
  unfold poll_tick
  rw [if_neg (Nat.not_lt.mpr h)]

theorem poll_tick_monotone (env : TickEnv) (w : WatcherState) :
    w._last_message_id ≤ (poll_tick env w).1._last_message_id ∧
    w._last_mtime ≤ (poll_tick env w).1._last_mtime := by
  unfold poll_tick
  by_cases hmt : w._last_mtime < env.store.mtime
  · simp only [if_pos hmt]
    by_cases hid : w._last_message_id <
        MessageWatcher._get_last_message_id env.store
    · simp only [if_pos hid]
      split
      · exact ⟨Nat.le_refl _, Nat.le_of_lt hmt⟩
      · split <;> exact ⟨Nat.le_of_lt hid, Nat.le_of_lt hmt⟩
    · simp only [if_neg hid]
      split <;> exact ⟨Nat.le_refl _, Nat.le_of_lt hmt⟩
  · simp only [if_neg hmt]
    exact ⟨Nat.le_refl _, Nat.le_refl _⟩

theorem poll_loop_monotone :
    ∀ (envs : List TickEnv) (w : WatcherState),
    w._last_message_id ≤ (poll_loop envs w).1._last_message_id ∧
    w._last_mtime ≤ (poll_loop envs w).1._last_mtime := by
  intro envs
  induction envs with
  | nil => intro w; exact ⟨Nat.le_refl _, Nat.le_refl _⟩
  | cons env rest ih =>
    intro w
    rw [poll_loop_cons]
    obtain ⟨h1, h2⟩ := poll_tick_monotone env w
    obtain ⟨h3, h4⟩ := ih (poll_tick env w).1
    exact ⟨Nat.le_trans h1 h3, Nat.le_trans h2 h4⟩

theorem mem_get_new_messages {s : Store} {k : Nat} {m : Msg}
    (h : m ∈ MessageWatcher.get_new_messages s k) : k < m.rowid := by
  unfold MessageWatcher.get_new_messages at h
  rw [List.mem_insertionSort] at h
  have hmem := List.mem_filter.mp h
  simpa using hmem.2

theorem poll_tick_delivered_gt {env : TickEnv} {w : WatcherState} {i : Nat}
    {m : Msg} (h : m ∈ delivered_to i (poll_tick env w).2) :
    w._last_message_id < m.rowid := by
  unfold poll_tick at h
  by_cases hmt : w._last_mtime < env.store.mtime
  case neg =>
    simp only [if_neg hmt] at h
    simp [delivered_to] at h
  case pos =>
  simp only [if_pos hmt] at h
  by_cases hid : w._last_message_id < MessageWatcher._get_last_message_id env.store
  case neg =>
    simp only [if_neg hid] at h
    split at h <;> (try dsimp only at h)
    · rw [delivered_to_notify_error] at h
      simp at h
    · rw [delivered_to_deliver_convs] at h
      simp at h
  case pos =>
  simp only [if_pos hid] at h
  by_cases hrn : env.read_new_raises = true
  case pos =>
    simp only [if_pos hrn] at h
    rw [delivered_to_notify_error] at h
    simp at h
  case neg =>
  simp only [if_neg hrn] at h
  split at h <;> (try dsimp only at h) <;>
    (rw [delivered_to_append] at h
     rcases List.mem_append.mp h with h1 | h1
     · have hbatch : m ∈ MessageWatcher.get_new_messages env.store
           w._last_message_id := by
         split at h1
         · simp [delivered_to] at h1
         · exact delivered_to_deliver_msgs_sub h1
       exact mem_get_new_messages hbatch
     · first
       | (rw [delivered_to_notify_error] at h1; simp at h1)
       | (rw [delivered_to_deliver_convs] at h1; simp at h1))

theorem poll_loop_delivered_gt {i : Nat} :
    ∀ (envs : List TickEnv) (w : WatcherState) (m : Msg),
    m ∈ delivered_to i (poll_loop envs w).2 → w._last_message_id < m.rowid := by
  intro envs
  induction envs with
  | nil => intro w m h; simp [poll_loop, delivered_to] at h
  | cons env rest ih =>
    intro w m h
    rw [poll_loop_cons] at h
    dsimp only at h
    rw [delivered_to_append] at h
    rcases List.mem_append.mp h with h1 | h1
    · exact poll_tick_delivered_gt h1
    · exact Nat.lt_of_le_of_lt (poll_tick_monotone env w).1
        (ih (poll_tick env w).1 m h1)

/-! ### C6 — `start` idempotence and baseline -/

/-- C6: `start` while running is a no-op that launches no second poll
thread; a (re-)start from a non-running watcher records the store's
current highest sequence id and modification time as the baseline and
does launch the thread; and across any subsequent tick schedule no
message already present at `start` time is ever delivered as new (every
delivered message has a sequence id above the baseline). -/
theorem start_idempotent_baseline (s : Store) (w : WatcherState)
    (hrun : w._running = true)
    (envs : List TickEnv) (i : Nat) :
    MessageWatcher.start s w = (w, false) ∧
    ((MessageWatcher.start s MessageWatcher.initial).1._last_message_id
        = MessageWatcher._get_last_message_id s ∧
     (MessageWatcher.start s MessageWatcher.initial).1._last_mtime = s.mtime ∧
     (MessageWatcher.start s MessageWatcher.initial).2 = true) ∧
    ∀ m ∈ delivered_to i (poll_loop envs
        (MessageWatcher.start s MessageWatcher.initial).1).2,
      MessageWatcher._get_last_message_id s < m.rowid ∧ m ∉ s.msgs := by
  refine ⟨?_, ⟨rfl, rfl, rfl⟩, ?_⟩
  · unfold MessageWatcher.start
    rw [if_pos hrun]
  · intro m hm
    have hgt : MessageWatcher._get_last_message_id s < m.rowid :=
      poll_loop_delivered_gt envs _ m hm
    refine ⟨hgt, fun hmem => ?_⟩
    exact Nat.not_le.mpr hgt (mem_le_max_rowid hmem)

/-- Witness for C6: a running watcher and one quiet tick on `store0`. -/
theorem start_idempotent_baseline_witness :
    MessageWatcher.start store0
        { _running := true, _last_message_id := 3, _last_mtime := 7 }
      = ({ _running := true, _last_message_id := 3, _last_mtime := 7 }, false) ∧
    (MessageWatcher.start store0 MessageWatcher.initial).1._last_message_id
      = MessageWatcher._get_last_message_id store0 :=
  ⟨(start_idempotent_baseline store0
      { _running := true, _last_message_id := 3, _last_mtime := 7 }
      rfl [] 0).1,
   (start_idempotent_baseline store0
      { _running := true, _last_message_id := 3, _last_mtime := 7 }
      rfl [] 0).2.1.1⟩

/-! ### C4 — within-tick delivery order -/

theorem flatMap_singleton_eq_map {α β : Type} (f : α → β) (l : List α) :
    (l.flatMap fun a => [f a]) = l.map f := by
  induction l with
  | nil => rfl
  | cons a as ih => simp [ih]

theorem deliver_convs_pure (n_msg n_conv n_err : Nat) (s : Store) :
    deliver_convs (pure_env n_msg n_conv n_err s)
      = (List.range n_conv).map fun i => Ev.convDelivery i s := by
  unfold deliver_convs pure_env
  simp only [Bool.false_eq_true, if_false]
  exact flatMap_singleton_eq_map _ _

instance : IsTotal Msg (fun m m' => m.date ≤ m'.date) :=
  ⟨fun a b => Nat.le_total a.date b.date⟩

instance : IsTrans Msg (fun m m' => m.date ≤ m'.date) :=
  ⟨fun _ _ _ => Nat.le_trans⟩

theorem get_new_messages_sorted (s : Store) (k : Nat) :
    List.Pairwise (fun m m' => m.date ≤ m'.date)
      (MessageWatcher.get_new_messages s k) := by
  unfold MessageWatcher.get_new_messages
  exact List.sorted_insertionSort _ _

/-- C4: in a tick that detects a change (`mtime` advanced, watermark
exceeded, non-empty batch) and in which nothing raises, the recorded
invocations are exactly one delivery of the full batch to each
new-message observer followed by one delivery of the conversation
refresh to each conversation observer — so every new-message observer
is invoked exactly once, before any conversation observer, and the
batch is ordered oldest-first (non-decreasing `date`, the sort key of
the fetch). -/
theorem tick_delivery_order (s : Store) (w : WatcherState)
    (n_msg n_conv n_err : Nat)
    (hmt : w._last_mtime < s.mtime)
    (hid : w._last_message_id < MessageWatcher._get_last_message_id s)
    (hne : (MessageWatcher.get_new_messages s w._last_message_id).isEmpty
      = false) :
    (poll_tick (pure_env n_msg n_conv n_err s) w).2
      = ((List.range n_msg).map fun i =>
           Ev.msgDelivery i (MessageWatcher.get_new_messages s
             w._last_message_id))
        ++ ((List.range n_conv).map fun i => Ev.convDelivery i s) ∧
    List.Pairwise (fun m m' => m.date ≤ m'.date)
      (MessageWatcher.get_new_messages s w._last_message_id) := by
  refine ⟨?_, get_new_messages_sorted s w._last_message_id⟩
  unfold poll_tick
  simp only [pure_env]
  rw [if_pos hmt, if_pos hid]
  simp only [Bool.false_eq_true, if_false, hne]
  show deliver_msgs (pure_env n_msg n_conv n_err s)
        (MessageWatcher.get_new_messages s w._last_message_id)
      ++ deliver_convs (pure_env n_msg n_conv n_err s) = _
  rw [deliver_msgs_pure, flatMap_singleton_eq_map, deliver_convs_pure]

/-- Witness for C4: the scenario with baseline 10 and arrivals 11, 12. -/
theorem tick_delivery_order_witness :
    (poll_tick (pure_env 1 1 0 store1)
        (MessageWatcher.start store0 MessageWatcher.initial).1).2
      = [Ev.msgDelivery 0 [{ rowid := 11, date := 6 }, { rowid := 12, date := 7 }],
         Ev.convDelivery 0 store1] := by
  have h := (tick_delivery_order store1
    (MessageWatcher.start store0 MessageWatcher.initial).1 1 1 0
    (by decide) (by decide) (by decide)).1
  rw [h]
  decide

/-! ### C5 — error isolation -/

theorem count_err_notify {k : Nat} (env : TickEnv) (hk : k < env.num_err_cbs) :
    (notify_error env).count (Ev.errDelivery k) = 1 := by
  unfold notify_error
  have key : ∀ n : Nat, (((List.range n).map Ev.errDelivery).count
      (Ev.errDelivery k)) = if k < n then 1 else 0 := by
    intro n
    induction n with
    | zero => simp
    | succ n ih =>
      rw [List.range_succ, List.map_append, List.count_append, ih]
      simp only [List.map_cons, List.map_nil]
      by_cases hkn : k = n
      · subst hkn
        simp [List.count_cons]
      · have hk' : (Ev.errDelivery n == Ev.errDelivery k) = false := by
          simp [Ne.symm hkn]
        by_cases hlt : k < n
        · simp [List.count_cons, hk', hlt, Nat.lt_succ_of_lt hlt]
        · have : ¬ k < n + 1 := by omega
          simp [List.count_cons, hk', hlt, this]
  rw [key env.num_err_cbs, if_pos hk]

theorem count_err_flatMap (e : Ev) (g : Nat → Ev) (hg : ∀ i, g i ≠ e)
    (p : Nat → Bool) (N : List Ev) :
    ∀ l : List Nat,
    (l.flatMap fun i => g i :: (if p i then N else [])).count e
      = (l.filter p).length * N.count e := by
  intro l
  induction l with
  | nil => simp
  | cons a as ih =>
    rw [List.flatMap_cons, List.count_append, ih, List.count_cons]
    have hga : (g a == e) = false := by
      simp [hg a]
    rw [hga]
    simp only [Bool.false_eq_true, if_false, Nat.add_zero, List.filter_cons]
    by_cases hpa : p a = true
    · simp only [if_pos hpa, List.length_cons]
      ring
    · simp only [if_neg hpa]
      simp

theorem count_err_deliver_msgs (env : TickEnv) (k : Nat)
    (hk : k < env.num_err_cbs) (batch : List Msg) :
    (deliver_msgs env batch).count (Ev.errDelivery k)
      = ((List.range env.num_msg_cbs).filter env.msg_cb_raises).length := by
  unfold deliver_msgs
  rw [count_err_flatMap (Ev.errDelivery k)
    (fun i => Ev.msgDelivery i batch) (fun i => Ev.noConfusion)
    env.msg_cb_raises (notify_error env) (List.range env.num_msg_cbs)]
  rw [count_err_notify env hk, Nat.mul_one]

theorem count_err_deliver_convs (env : TickEnv) (k : Nat)
    (hk : k < env.num_err_cbs) :
    (deliver_convs env).count (Ev.errDelivery k)
      = ((List.range env.num_conv_cbs).filter env.conv_cb_raises).length := by
  unfold deliver_convs
  rw [count_err_flatMap (Ev.errDelivery k)
    (fun i => Ev.convDelivery i env.store) (fun i => Ev.noConfusion)
    env.conv_cb_raises (notify_error env) (List.range env.num_conv_cbs)]
  rw [count_err_notify env hk, Nat.mul_one]

theorem poll_tick_err_count (env : TickEnv) (w : WatcherState) (k : Nat)
    (hk : k < env.num_err_cbs) :
    (poll_tick env w).2.count (Ev.errDelivery k) = exceptions_fired env w := by
  unfold poll_tick exceptions_fired
  by_cases hmt : w._last_mtime < env.store.mtime
  case neg => simp only [if_neg hmt]; rfl
  case pos =>
  simp only [if_pos hmt]
  by_cases hid : w._last_message_id <
      MessageWatcher._get_last_message_id env.store
  case neg =>
    simp only [if_neg hid]
    by_cases hrc : env.read_convs_raises = true
    · simp only [if_pos hrc]
      exact count_err_notify env hk
    · simp only [if_neg hrc]
      exact count_err_deliver_convs env k hk
  case pos =>
  simp only [if_pos hid]
  by_cases hrn : env.read_new_raises = true
  case pos =>
    simp only [if_pos hrn]
    exact count_err_notify env hk
  case neg =>
  simp only [if_neg hrn]
  by_cases hbe : (MessageWatcher.get_new_messages env.store
      w._last_message_id).isEmpty = true
  · simp only [hbe, if_pos, if_true]
    by_cases hrc : env.read_convs_raises = true
    · simp only [if_pos hrc]
      show ([] ++ notify_error env).count (Ev.errDelivery k) = 0 + 1
      rw [List.nil_append, count_err_notify env hk]
    · simp only [if_neg hrc]
      show ([] ++ deliver_convs env).count (Ev.errDelivery k) = 0 + _
      rw [List.nil_append, count_err_deliver_convs env k hk, Nat.zero_add]
  · simp only [if_neg hbe]
    by_cases hrc : env.read_convs_raises = true
    · simp only [if_pos hrc]
      rw [List.count_append, count_err_deliver_msgs env k hk (MessageWatcher.get_new_messages env.store w._last_message_id),
        count_err_notify env hk]
    · simp only [if_neg hrc]
      rw [List.count_append, count_err_deliver_msgs env k hk (MessageWatcher.get_new_messages env.store w._last_message_id),
        count_err_deliver_convs env k hk]

/-- C5: every exception of a tick — a raising store read or a raising
new-message or conversation observer — is caught and delivered to every
registered error observer (error observer `k` receives exactly one
notification per fired exception), and processing always continues with
the next tick: the loop's transcript is the failing tick's events
followed by the remaining ticks' events from the post-tick state. -/
theorem poll_loop_error_isolation (env : TickEnv) (w : WatcherState) (k : Nat)
    (hk : k < env.num_err_cbs) (rest : List TickEnv) :
    (poll_tick env w).2.count (Ev.errDelivery k) = exceptions_fired env w ∧
    poll_loop (env :: rest) w
      = ((poll_loop rest (poll_tick env w).1).1,
         (poll_tick env w).2 ++ (poll_loop rest (poll_tick env w).1).2) :=
  ⟨poll_tick_err_count env w k hk, poll_loop_cons env rest w⟩

/-- Witness for C5: a tick on `store1` whose conversation read raises and
whose new-message observer raises; both exceptions land on error
observer 0 and the loop continues. -/
theorem poll_loop_error_isolation_witness :
    (poll_tick failing_env
        (MessageWatcher.start store0 MessageWatcher.initial).1).2.count
        (Ev.errDelivery 0)
      = exceptions_fired failing_env
          (MessageWatcher.start store0 MessageWatcher.initial).1 ∧
    exceptions_fired failing_env
        (MessageWatcher.start store0 MessageWatcher.initial).1 = 2 :=
  ⟨(poll_loop_error_isolation failing_env
      (MessageWatcher.start store0 MessageWatcher.initial).1 0
      (by decide) []).1,
   by decide⟩

/-! ### C1 — exactly-once, ordered delivery -/

theorem delivered_to_loop_cons (i : Nat) (env : TickEnv) (rest : List TickEnv)
    (w : WatcherState) :
    delivered_to i (poll_loop (env :: rest) w).2
      = delivered_to i (poll_tick env w).2
        ++ delivered_to i (poll_loop rest (poll_tick env w).1).2 := by
  rw [poll_loop_cons]
  exact delivered_to_append i _ _

theorem poll_tick_pure_fire (n_msg n_conv n_err : Nat) (s : Store)
    (w : WatcherState)
    (hmt : w._last_mtime < s.mtime)
    (hid : w._last_message_id < max_rowid s.msgs) :
    poll_tick (pure_env n_msg n_conv n_err s) w
      = ({ _running := w._running, _last_message_id := max_rowid s.msgs,
           _last_mtime := s.mtime },
         (if (MessageWatcher.get_new_messages s w._last_message_id).isEmpty
            then []
            else deliver_msgs (pure_env n_msg n_conv n_err s)
              (MessageWatcher.get_new_messages s w._last_message_id))
           ++ deliver_convs (pure_env n_msg n_conv n_err s)) := by
  have hid' : w._last_message_id < MessageWatcher._get_last_message_id s := hid
  unfold poll_tick
  simp only [pure_env]
  rw [if_pos hmt, if_pos hid']
  simp only [Bool.false_eq_true, if_false]
  rfl

theorem poll_tick_pure_nofire (n_msg n_conv n_err : Nat) (s : Store)
    (w : WatcherState)
    (hmt : w._last_mtime < s.mtime)
    (hid : ¬ w._last_message_id < max_rowid s.msgs) :
    poll_tick (pure_env n_msg n_conv n_err s) w
      = ({ w with _last_mtime := s.mtime },
         deliver_convs (pure_env n_msg n_conv n_err s)) := by
  have hid' : ¬ w._last_message_id < MessageWatcher._get_last_message_id s := hid
  unfold poll_tick
  simp only [pure_env]
  rw [if_pos hmt, if_neg hid']
  simp only [Bool.false_eq_true, if_false]

theorem filter_prefix_nil {pre : List Msg} :
    pre.filter (fun m => decide (max_rowid pre < m.rowid)) = [] := by
  rw [List.filter_eq_nil_iff]
  intro m hm
  simp only [decide_eq_true_eq]
  exact fun hlt => Nat.not_le.mpr hlt (mem_le_max_rowid hm)

theorem run_pure_delivered (n_msg n_conv n_err i : Nat) (hi : i < n_msg) :
    ∀ (ss : List Store) (prev : Store) (w : WatcherState),
    List.Chain StoreStep prev ss →
    StoreOk ((ss.getLastD prev).msgs) →
    w._last_message_id = max_rowid prev.msgs →
    w._last_mtime = prev.mtime →
    delivered_to i (poll_loop (ss.map (pure_env n_msg n_conv n_err)) w).2
      = (ss.getLastD prev).msgs.filter
          (fun m => decide (max_rowid prev.msgs < m.rowid)) := by
  intro ss
  induction ss with
  | nil =>
    intro prev w _ hok hw1 hw2
    simp only [List.getLastD, List.map_nil, poll_loop]
    rw [filter_prefix_nil]
    rfl
  | cons s ss' ih =>
    intro prev w hchain hok hw1 hw2
    cases hchain with
    | cons hstep hchain' =>
    rw [List.getLastD_cons] at hok ⊢
    obtain ⟨rest, hrest⟩ := chain_extends hchain'
    have hokR : StoreOk (s.msgs ++ rest) := by rw [← hrest]; exact hok
    have hokS : StoreOk s.msgs := hokR.of_append_left
    obtain ⟨new, hnew⟩ := hstep.1
    rw [List.map_cons]
    by_cases hnil : new = []
    · -- no rows were appended before this tick
      have hmsgs_eq : s.msgs = prev.msgs := by
        rw [hnew, hnil, List.append_nil]
      have hmax_eq : max_rowid s.msgs = max_rowid prev.msgs := by
        rw [hmsgs_eq]
      have hnofire : ¬ w._last_message_id < max_rowid s.msgs := by
        rw [hmax_eq, hw1]
        exact Nat.lt_irrefl _
      by_cases hmtlt : w._last_mtime < s.mtime
      · rw [delivered_to_loop_cons,
          poll_tick_pure_nofire n_msg n_conv n_err s w hmtlt hnofire]
        dsimp only
        rw [delivered_to_deliver_convs, List.nil_append]
        have hrec := ih s { w with _last_mtime := s.mtime } hchain' hok
          (by rw [hw1, hmax_eq]) rfl
        rw [hrec, hmax_eq]
      · have hskip : (pure_env n_msg n_conv n_err s).store.mtime
            ≤ w._last_mtime := Nat.not_lt.mp hmtlt
        rw [delivered_to_loop_cons, poll_tick_skip _ w hskip]
        dsimp only
        rw [show delivered_to i ([] : List Ev) = [] from rfl, List.nil_append]
        have hrec := ih s w hchain' hok (by rw [hw1, hmax_eq]) ?_
        · rw [hrec, hmax_eq]
        · have h1 : prev.mtime ≤ s.mtime := hstep.2.1
          have h2 : s.mtime ≤ w._last_mtime := Nat.not_lt.mp hmtlt
          omega
    · -- new rows were appended before this tick
      have hne_msgs : prev.msgs ≠ s.msgs := by
        rw [hnew]
        intro heq
        have hlen := congrArg List.length heq
        rw [List.length_append] at hlen
        have : new.length = 0 := by omega
        exact hnil (List.eq_nil_of_length_eq_zero this)
      have hmt : w._last_mtime < s.mtime := by
        rw [hw2]
        exact hstep.2.2 hne_msgs
      have hokPN : StoreOk (prev.msgs ++ new) := by rw [← hnew]; exact hokS
      have hidlt : w._last_message_id < max_rowid s.msgs := by
        rw [hw1]
        conv_rhs => rw [hnew]
        exact max_rowid_append_lt hokPN hnil
      have hbatch : MessageWatcher.get_new_messages s w._last_message_id
          = new := by
        rw [hw1]
        exact get_new_messages_eq hnew hokS
      have hbe : new.isEmpty = false := by
        cases new with
        | nil => exact absurd rfl hnil
        | cons a as => rfl
      rw [delivered_to_loop_cons,
        poll_tick_pure_fire n_msg n_conv n_err s w hmt hidlt]
      dsimp only
      rw [hbatch, hbe]
      simp only [Bool.false_eq_true, if_false]
      rw [delivered_to_append,
        delivered_to_deliver_msgs_pure i n_msg n_conv n_err s new hi,
        delivered_to_deliver_convs, List.append_nil]
      have hrec := ih s ⟨w._running, max_rowid s.msgs, s.mtime⟩ hchain' hok rfl rfl
      rw [hrec, hrest, filter_append_suffix hokR]
      have hassoc : s.msgs ++ rest = prev.msgs ++ (new ++ rest) := by
        rw [hnew, List.append_assoc]
      rw [hassoc, filter_append_suffix (by rw [← hassoc]; exact hokR)]

/-- C1: starting from baseline store `s0` and polling once per store
state of an append-only evolution, the messages delivered to each
new-message observer across all ticks are exactly the messages of the
final store whose sequence id exceeds the `start()` baseline, in
ascending sequence-id order — none lost, none duplicated, none out of
order, however many ticks the appends span. -/
theorem watcher_exactly_once (s0 : Store) (ss : List Store)
    (n_msg n_conv n_err i : Nat) (hi : i < n_msg)
    (hchain : List.Chain StoreStep s0 ss)
    (hok : StoreOk ((ss.getLastD s0).msgs)) :
    delivered_to i (poll_loop (ss.map (pure_env n_msg n_conv n_err))
        (MessageWatcher.start s0 MessageWatcher.initial).1).2
      = (ss.getLastD s0).msgs.filter
          (fun m => decide (MessageWatcher._get_last_message_id s0 < m.rowid)) ∧
    List.Pairwise (fun m m' => m.rowid < m'.rowid)
      (delivered_to i (poll_loop (ss.map (pure_env n_msg n_conv n_err))
        (MessageWatcher.start s0 MessageWatcher.initial).1).2) := by
  have hmain := run_pure_delivered n_msg n_conv n_err i hi ss s0
    (MessageWatcher.start s0 MessageWatcher.initial).1 hchain hok rfl rfl
  refine ⟨hmain, ?_⟩
  rw [hmain]
  exact hok.1.filter _

/-- Witness for C1: baseline sequence id 10, appends 11 and 12 observed
by one tick; both are delivered once, in order. -/
theorem watcher_exactly_once_witness :
    delivered_to 0 (poll_loop ([store1].map (pure_env 1 1 0))
        (MessageWatcher.start store0 MessageWatcher.initial).1).2
      = [{ rowid := 11, date := 6 }, { rowid := 12, date := 7 }] := by
  have h := (watcher_exactly_once store0 [store1] 1 1 0 0 (by decide)
    (List.Chain.cons
      ⟨⟨[{ rowid := 11, date := 6 }, { rowid := 12, date := 7 }], rfl⟩,
        by decide, fun _ => by decide⟩
      List.Chain.nil)
    (by decide)).1
  rw [h]
  decide

/-! ### C3 — monotone watermark and modification time -/

theorem no_err_in_deliver_convs_pure (n_msg n_conv n_err : Nat) (s : Store) :
    ∀ k, Ev.errDelivery k ∉ deliver_convs (pure_env n_msg n_conv n_err s) := by
  intro k hk
  rw [deliver_convs_pure] at hk
  obtain ⟨x, _, hx⟩ := List.mem_map.mp hk
  exact Ev.noConfusion hx

/-- C3: across any tick schedule (failures included) the watcher's
last-seen sequence id and last-seen modification time never decrease.
Each flat-or-decreasing signal is handled on its own: a flat or
decreasing modification signal alone makes the tick a complete no-op
(no state change, no deliveries, no error); a flat or decreasing
highest sequence id alone — the modification time free to advance, as
in a truncated store — leaves the watermark unchanged and delivers no
message batch in any environment, and raises no error notification at
all when no failure is independently injected.  No negative delta is
ever computed: the fetch is a filter on `rowid > watermark`. -/
theorem watermark_monotone (envs : List TickEnv) (env : TickEnv)
    (w : WatcherState) (n_msg n_conv n_err : Nat) :
    (w._last_message_id ≤ (poll_loop envs w).1._last_message_id ∧
     w._last_mtime ≤ (poll_loop envs w).1._last_mtime) ∧
    (env.store.mtime ≤ w._last_mtime → poll_tick env w = (w, [])) ∧
    (MessageWatcher._get_last_message_id env.store ≤ w._last_message_id →
      (poll_tick env w).1._last_message_id = w._last_message_id ∧
      ∀ j batch, Ev.msgDelivery j batch ∉ (poll_tick env w).2) ∧
    (MessageWatcher._get_last_message_id env.store ≤ w._last_message_id →
      ∀ k, Ev.errDelivery k ∉
        (poll_tick (pure_env n_msg n_conv n_err env.store) w).2) := by
  refine ⟨poll_loop_monotone envs w, poll_tick_skip env w, ?_, ?_⟩
  · intro hid
    have hid' : ¬ w._last_message_id <
        MessageWatcher._get_last_message_id env.store := Nat.not_lt.mpr hid
    constructor
    · unfold poll_tick
      by_cases hmt : w._last_mtime < env.store.mtime
      · simp only [if_pos hmt, if_neg hid']
        split <;> rfl
      · simp only [if_neg hmt]
    · intro j batch hmem
      unfold poll_tick at hmem
      by_cases hmt : w._last_mtime < env.store.mtime
      · simp only [if_pos hmt, if_neg hid'] at hmem
        split at hmem <;> dsimp only at hmem
        · exact no_msg_in_notify_error env j batch hmem
        · exact no_msg_in_deliver_convs env j batch hmem
      · simp only [if_neg hmt] at hmem
        simp at hmem
  · intro hid k hk
    have hidlt : ¬ w._last_message_id < max_rowid env.store.msgs :=
      Nat.not_lt.mpr hid
    by_cases hmt : w._last_mtime < env.store.mtime
    · rw [poll_tick_pure_nofire n_msg n_conv n_err env.store w hmt hidlt] at hk
      dsimp only at hk
      exact no_err_in_deliver_convs_pure n_msg n_conv n_err env.store k hk
    · rw [poll_tick_skip (pure_env n_msg n_conv n_err env.store) w
        (Nat.not_lt.mp hmt)] at hk
      simp at hk

/-- Witness for C3: the truncation tick — modification time advanced
from 1 to 5 while the highest sequence id dropped from 10 to 0 —
leaves the watermark at 10, delivers no message batch, and raises no
error; and a tick whose modification signal is flat is a complete
no-op. -/
theorem watermark_monotone_witness :
    ((poll_tick (pure_env 1 1 1 store_trunc)
        (MessageWatcher.start store0 MessageWatcher.initial).1).1._last_message_id
      = (MessageWatcher.start store0 MessageWatcher.initial).1._last_message_id) ∧
    (∀ j batch, Ev.msgDelivery j batch ∉ (poll_tick (pure_env 1 1 1 store_trunc)
        (MessageWatcher.start store0 MessageWatcher.initial).1).2) ∧
    (∀ k, Ev.errDelivery k ∉ (poll_tick (pure_env 1 1 1 store_trunc)
        (MessageWatcher.start store0 MessageWatcher.initial).1).2) ∧
    poll_tick (pure_env 1 1 0 store0)
        (MessageWatcher.start store0 MessageWatcher.initial).1
      = ((MessageWatcher.start store0 MessageWatcher.initial).1, []) :=
  ⟨((watermark_monotone [] (pure_env 1 1 1 store_trunc)
      (MessageWatcher.start store0 MessageWatcher.initial).1 1 1 1).2.2.1
      (by decide)).1,
   ((watermark_monotone [] (pure_env 1 1 1 store_trunc)
      (MessageWatcher.start store0 MessageWatcher.initial).1 1 1 1).2.2.1
      (by decide)).2,
   (watermark_monotone [] (pure_env 1 1 1 store_trunc)
      (MessageWatcher.start store0 MessageWatcher.initial).1 1 1 1).2.2.2
      (by decide),
   (watermark_monotone [] (pure_env 1 1 0 store0)
      (MessageWatcher.start store0 MessageWatcher.initial).1 1 1 0).2.1
      (by decide)⟩
